import Mathlib

/-!
Verification development for the qsketch streaming sketch engine
(`qsketch/sketch.py`).  The Python source is shallowly embedded below:

* the quantile-sketch accumulation loop of `sketch` (lines 41-124) becomes
  `sketchLoop` / `sketchOne` / `sketchAll`, with data modelled as a list of
  batches (each batch a list of samples) and the module as a per-sample
  function; the preallocated buffer written slice-by-slice and then
  truncated to `pos` is modelled as the list of accumulated rows followed
  by `List.take pos`, which yields the same row contents;
* the `to_iterator` dispatch (lines 17-38) and `Sketcher.__call__`
  (lines 162-178) become `toIteratorOpt` / `sketcherCall`, with the data
  source abstracted to its recognized kind;
* the stream-setup computations of `Sketcher.stream` (lines 206-248)
  become `resolveNumWorkers`, `streamMaxId` and `startStreamSetup`
  (with `torch.randint` modelled by its size/range behaviour, failing on a
  negative size or an empty range);
* the worker protocol `sketch_worker` (lines 286-431) becomes a labelled
  transition system over `SysState`: shared synchronization fields plus a
  multiset of per-worker control points, with the output queue recorded as
  the append-only log of enqueued messages; an item message is abstracted
  to the epoch its publisher claimed it in.
-/

namespace QSketch

/-! ## QuantileSketchComputer: the `sketch` accumulation loop -/

/-- Outcome of the `while` accumulation loop of `sketch`
(`sketch.py` lines 56-110). `processed` is `none` exactly when no batch was
ever obtained from the data iterator; `pos` is the number of samples
accumulated; `warned` records whether the `StopIteration` warning at lines
68-72 fired; `rest` is the part of the (shared) data iterator not consumed
by this module's loop. -/
structure LoopOut (α β : Type) where
  processed : Option (List β)
  pos : Nat
  warned : Bool
  rest : List (List α)

/-- The loop guard of `sketch.py` lines 61-62:
`True if num_examples is None else pos < num_examples`. -/
def loopCond (numExamples : Option Nat) (pos : Nat) : Bool :=
  match numExamples with
  | none => true
  | some k => pos < k

/-- Batch clipping of `sketch.py` lines 77-80:
`min(len(imgs), num_examples - pos)` when a budget is given, else the whole
batch. -/
def batchTake (numExamples : Option Nat) (pos : Nat) (len : Nat) : Nat :=
  match numExamples with
  | none => len
  | some k => min len (k - pos)

/-- The accumulation loop of `sketch.py` lines 61-110 for one module `f`.
Each iteration takes the next batch (raising `StopIteration` when the list
is exhausted, which warns iff `num_examples` was given), clips it with
`batchTake`, applies the module to the clipped batch, appends the computed
rows (slice assignment into the preallocated buffer and `torch.cat` both
amount to appending the rows) and advances `pos`. -/
def sketchLoop {α β : Type} (f : α → β) (numExamples : Option Nat) :
    List (List α) → Nat → Option (List β) → LoopOut α β
  | batches, pos, processed =>
    if loopCond numExamples pos then
      match batches with
      | [] => ⟨processed, pos, numExamples.isSome, []⟩
      | imgs :: rest =>
        let n := batchTake numExamples pos imgs.length
        let computed := (imgs.take n).map f
        sketchLoop f numExamples rest (pos + n) (some (processed.getD [] ++ computed))
    else ⟨processed, pos, false, batches⟩

/-- The per-module body of `sketch` (`sketch.py` lines 54-123): run the
accumulation loop from `pos = 0` with no buffer allocated; raise
(`'Did not get any data from data_source. Cannot sketch.'`, lines 112-114)
when the loop never obtained a batch; otherwise truncate to `pos`
(line 117) and return the rows handed to `Percentile` together with the
warning flag. -/
def sketchOne {α β : Type} (f : α → β) (numExamples : Option Nat)
    (batches : List (List α)) : Except Unit (List β × Bool) :=
  let out := sketchLoop f numExamples batches 0 none
  match out.processed with
  | none => .error ()
  | some processed => .ok (processed.take out.pos, out.warned)

/-- The `for module in modules` loop of `sketch` (lines 53-124): all modules
share one `data_iterator`, so each module's loop starts on the batches the
previous one left unconsumed. -/
def sketchAll {α β : Type} (numExamples : Option Nat) :
    List (α → β) → List (List α) → Except Unit (List (List β × Bool))
  | [], _ => .ok []
  | f :: fs, batches =>
    let out := sketchLoop f numExamples batches 0 none
    match out.processed with
    | none => .error ()
    | some processed =>
      (sketchAll numExamples fs out.rest).map
        (fun tail => (processed.take out.pos, out.warned) :: tail)

/-- Total number of samples offered by a batch list. -/
def totalSamples {α : Type} (batches : List (List α)) : Nat :=
  (batches.map List.length).sum

/-! ## `to_iterator` and `Sketcher.__call__` -/

/-- The recognized kinds of data source probed by `to_iterator`
(`sketch.py` lines 22-37): `DataStream`, a multiprocessing `Queue`, a
`Tensor`, a `Dataset`, a `DataLoader`, a generic `collections.Iterable`,
or anything else (`unknown`). -/
inductive SrcKind : Type
  | dataStream
  | mpQueue
  | tensor
  | dataset
  | dataLoader
  | iterable
  | unknown
deriving DecidableEq

/-- `to_iterator` (`sketch.py` lines 17-38): `None` passes through; every
recognized kind is wrapped into an iterator (we retain the kind as the
iterator's identity); an unrecognized source raises
`'Sketcher: data_source type is not understood'`, modelled as `.error ()`. -/
def toIteratorOpt : Option SrcKind → Except Unit (Option SrcKind)
  | none => .ok none
  | some k =>
    match k with
    | .unknown => .error ()
    | k => .ok (some k)

/-- Result of `Sketcher.__call__`: the `'Sketcher has no default data'`
exception (line 167), the `to_iterator` exception for an unrecognized
supplied source, or the call into `sketch` (lines 175-178) with the
iterator, sample budget and percentiles it receives. -/
inductive CallResult : Type
  | noDefaultData
  | unsupportedSource
  | sketchCall (iter : Option SrcKind) (numExamples : Option Nat) (percentiles : Nat)
deriving DecidableEq

/-- Whether a `CallResult` reached the quantile sketch routine. -/
def CallResult.reachesSketch : CallResult → Bool
  | .sketchCall _ _ _ => true
  | _ => false

/-- `Sketcher.__call__` (`sketch.py` lines 162-178).  `selfIter` is the
iterator stored by `__init__` (i.e. `to_iterator(data_source)`), `selfNE`
the stored `num_examples`, `selfP` the stored percentiles (abstracted to a
token).  When `data is None` the defaults are used (raising if the stored
iterator is `None`); otherwise the supplied data is converted and
`num_examples = None` is passed on. -/
def sketcherCall (selfIter : Option SrcKind) (selfNE : Option Nat) (selfP : Nat)
    (data : Option SrcKind) (percentiles : Option Nat) : CallResult :=
  match data with
  | none =>
    match selfIter with
    | none => .noDefaultData
    | some it => .sketchCall (some it) selfNE (percentiles.getD selfP)
  | some d =>
    match toIteratorOpt (some d) with
    | .error _ => .unsupportedSource
    | .ok it => .sketchCall it none (percentiles.getD selfP)

/-! ## `Sketcher.stream` setup -/

/-- Worker-count resolution of `Sketcher.stream` (`sketch.py` lines
206-211 and 244-248).  A negative `num_workers` is replaced by
`max(1, min(1e7, int((cpu_count() - 1) / 2)))`; for `cpuCount ≥ 1` the
`int()` truncation of the nonnegative true division is floor division.
When the `min` selects the float sentinel `1e7` — i.e. when
`(cpuCount - 1) / 2 ≥ 10^7` — the float escapes into
`range(num_workers)` and process creation fails, modelled as `none`;
otherwise `some` the number of worker processes launched. -/
def resolveNumWorkers (numWorkers : Int) (cpuCount : Nat) : Option Int :=
  if numWorkers < 0 then
    if (cpuCount - 1) / 2 < 10000000 then
      some ((max 1 ((cpuCount - 1) / 2) : Nat) : Int)
    else
      none
  else
    some numWorkers

/-- `shared_data['max_id']` as computed by `Sketcher.stream` (lines
222-228): a caller-supplied `max_id` wins; otherwise `len(modules)` when
`modules` is not a `ModulesDataset`, else `torch.iinfo(torch.int16).max =
32767` (a `ModulesDataset` defines no `__len__`). -/
def streamMaxId (maxIdArg : Option Nat) (isModulesDataset : Bool)
    (modulesLen : Nat) : Nat :=
  match maxIdArg with
  | some m => m
  | none => if isModulesDataset then 32767 else modulesLen

/-- The upper bound of the worker's unbounded random draw
(`sketch_worker`, lines 321-330): `len(modules)` when `modules` has a
`__len__`, else `torch.iinfo(torch.int16).max = 32767`.  The shared
record's `max_id` is not read on this path. -/
def workerUnboundedHigh (modulesLen : Option Nat) : Nat :=
  match modulesLen with
  | some l => l
  | none => 32767

/-- The set of item ids the unbounded claiming step can draw:
`torch.randint(low=0, high=workerUnboundedHigh, size=(1,))`. -/
def unboundedDrawSupport (modulesLen : Option Nat) : Finset Nat :=
  Finset.range (workerUnboundedHigh modulesLen)

/-- `torch.randint(low=0, high=high, size=(size,))`, modelled by its
size/range behaviour: it raises when the requested size is negative or the
range `[0, high)` is empty, and otherwise yields some list of `size` draws
from `[0, high)`; the result is abstracted to the pair
`(size.toNat, high)`. -/
def torchRandint (high : Nat) (size : Int) : Option (Nat × Nat) :=
  if 0 ≤ size ∧ 0 < high then some (size.toNat, high) else none

/-- The synchronization fields of `Sketcher.stream` relevant to epoch
bounding: the stored `num_sketches` and the stored `sketch_list`
(`none` = the Python `None`, `some (size, high)` = a drawn list of `size`
ids from `[0, high)`). -/
structure StreamShared : Type where
  num_sketches : Int
  sketch_list : Option (Nat × Nat)
deriving DecidableEq

/-- The `num_sketches` / `sketch_list` setup of `Sketcher.stream`
(`sketch.py` lines 234-241):
`num_sketches if num_sketches > 0 else -1` is stored, and the list is
`None if num_sketches == -1 else torch.randint(0, max_id,
(shared num_sketches,))` — note the `== -1` test is on the **argument**,
not the stored value.  `none` models `startStream` raising. -/
def startStreamSetup (num_sketches : Int) (max_id : Nat) : Option StreamShared :=
  let ns : Int := if 0 < num_sketches then num_sketches else -1
  if num_sketches = -1 then
    some ⟨ns, none⟩
  else
    match torchRandint max_id ns with
    | none => none
    | some l => some ⟨ns, some l⟩

/-! ## The worker protocol `sketch_worker` as a transition system

One state holds the shared synchronization record (`current_pick_epoch`,
`current_put_epoch`, `current_sketch`, `done_in_current_epoch`, `pause`,
`die`), the append-only log of messages enqueued into the stream queue,
and a multiset of per-worker control points.  An enqueued item message
carries, as verification ghost data, the pick epoch its publisher claimed
it in (the concrete payload `(sketch, sketch_id)` plays no role in the
ordering claims).  Consumption from the queue does not affect what was
enqueued, so the log suffices for the enqueue-order claims. -/

/-- A message enqueued into the stream queue: an item `(sketch, sketch_id)`
 — abstracted to the epoch it was claimed in — or the epoch-boundary
terminator `None`. -/
inductive Msg : Type
  | item (epoch : Nat)
  | term
deriving DecidableEq

/-- Control point of one worker inside the `while True` loop of
`sketch_worker`:

* `claiming` — at the top of the loop (line 300), about to take the lock;
* `computing e` — released the lock holding a claim of pick epoch `e`
  (lines 377-400: computing the sketch, then spinning in the
  `while not can_put` wait);
* `ready e` — observed `current_put_epoch == e` under the lock
  (lines 388-392) and left the wait loop, about to enqueue;
* `didPut e` — enqueued its item (line 404), about to take the lock for
  the counter update (lines 407-417);
* `dead held` — parked forever in one of the dying loops (lines 361-375,
  394-399, 419-424); `held` records a claimed epoch that was never
  published (a worker dying in the wait loop), `none` if no claim is held. -/
inductive Phase : Type
  | claiming
  | computing (e : Nat)
  | ready (e : Nat)
  | didPut (e : Nat)
  | dead (held : Option Nat)
deriving DecidableEq

/-- Global state: shared record + queue log + worker control points. -/
structure SysState : Type where
  pick : Nat
  put : Nat
  cur : Nat
  done : Nat
  pause : Bool
  die : Bool
  log : List Msg
  workers : Multiset Phase

/-- The freshly initialized state of `Sketcher.stream` (lines 229-233):
all counters zero, empty queue, `W` workers at the top of their loop. -/
def initState (W : Nat) : SysState :=
  { pick := 0, put := 0, cur := 0, done := 0, pause := false, die := false,
    log := [], workers := Multiset.replicate W .claiming }

/-- One interleaved step of the system.  `N` is the stored
`num_sketches` (a positive count, or `-1` for unbounded) and `E` the
stored `num_epochs`.  Each constructor carries the acting worker's control
point as the head of a cons decomposition of the multiset.

The guards transcribe `sketch_worker`:
`claimLast`/`claimNext` are the claiming block (lines 315-360) with its
`id == num_sketches - 1` test, `claimDie` its `epoch >= num_epochs` exit
(lines 335-340 and 361-375), `observeTurn` the successful read of the wait
loop (lines 387-400), `waitDie` its `die` exit (lines 394-399),
`enqueueItem` the queue put (line 404), `publishLast`/`publishMid` the
counter update (lines 407-417) with its `done == num_sketches` test,
`loopDie` the end-of-iteration `die` check (lines 419-424), and
`setPause`/`setDie` the coordinator's `pause`/`resume`/`stop`. -/
inductive Step (N : Int) (E : Nat) : SysState → SysState → Prop
  | claimLast (s : SysState) (rest : Multiset Phase)
      (hw : s.workers = .claiming ::ₘ rest)
      (hp : s.pause = false)
      (hE : s.pick < E)
      (hid : (s.cur : Int) = N - 1) :
      Step N E s { s with cur := 0, pick := s.pick + 1,
                          workers := .computing s.pick ::ₘ rest }
  | claimNext (s : SysState) (rest : Multiset Phase)
      (hw : s.workers = .claiming ::ₘ rest)
      (hp : s.pause = false)
      (hE : s.pick < E)
      (hid : (s.cur : Int) ≠ N - 1) :
      Step N E s { s with cur := s.cur + 1,
                          workers := .computing s.pick ::ₘ rest }
  | claimDie (s : SysState) (rest : Multiset Phase)
      (hw : s.workers = .claiming ::ₘ rest)
      (hp : s.pause = false)
      (hE : E ≤ s.pick) :
      Step N E s { s with workers := .dead none ::ₘ rest }
  | observeTurn (s : SysState) (rest : Multiset Phase) (e : Nat)
      (hw : s.workers = .computing e ::ₘ rest)
      (he : s.put = e) :
      Step N E s { s with workers := .ready e ::ₘ rest }
  | waitDie (s : SysState) (rest : Multiset Phase) (e : Nat)
      (hw : s.workers = .computing e ::ₘ rest)
      (hne : s.put ≠ e)
      (hd : s.die = true) :
      Step N E s { s with workers := .dead (some e) ::ₘ rest }
  | enqueueItem (s : SysState) (rest : Multiset Phase) (e : Nat)
      (hw : s.workers = .ready e ::ₘ rest) :
      Step N E s { s with log := s.log ++ [.item e],
                          workers := .didPut e ::ₘ rest }
  | publishLast (s : SysState) (rest : Multiset Phase) (e : Nat)
      (hw : s.workers = .didPut e ::ₘ rest)
      (hdone : (s.done : Int) + 1 = N) :
      Step N E s { s with done := 0, put := s.put + 1,
                          log := s.log ++ [.term],
                          workers := .claiming ::ₘ rest }
  | publishMid (s : SysState) (rest : Multiset Phase) (e : Nat)
      (hw : s.workers = .didPut e ::ₘ rest)
      (hdone : (s.done : Int) + 1 ≠ N) :
      Step N E s { s with done := s.done + 1,
                          workers := .claiming ::ₘ rest }
  | loopDie (s : SysState) (rest : Multiset Phase)
      (hw : s.workers = .claiming ::ₘ rest)
      (hd : s.die = true) :
      Step N E s { s with workers := .dead none ::ₘ rest }
  | setPause (s : SysState) (b : Bool) :
      Step N E s { s with pause := b }
  | setDie (s : SysState) :
      Step N E s { s with die := true }

/-- States reachable by any interleaving of worker and coordinator steps. -/
abbrev Reachable (N : Int) (E : Nat) : SysState → SysState → Prop :=
  Relation.ReflTransGen (Step N E)

/-! ### Counting workers and messages -/

/-- Number of workers at control point `computing e`. -/
def compCt (e : Nat) (w : Multiset Phase) : Nat :=
  Multiset.countP (fun p => p = Phase.computing e) w

/-- Number of workers at control point `ready e`. -/
def readyCt (e : Nat) (w : Multiset Phase) : Nat :=
  Multiset.countP (fun p => p = Phase.ready e) w

/-- Number of workers at control point `didPut e`. -/
def dpCt (e : Nat) (w : Multiset Phase) : Nat :=
  Multiset.countP (fun p => p = Phase.didPut e) w

/-- Number of dead workers still holding an unpublished claim of epoch `e`. -/
def lostCt (e : Nat) (w : Multiset Phase) : Nat :=
  Multiset.countP (fun p => p = Phase.dead (some e)) w

/-- Number of slots of epoch `e` handed out so far, given the current
`current_pick_epoch` and `current_sketch`: every epoch before the pick
epoch handed out all `n` of its slots, the pick epoch itself handed out
`cur` of them, later epochs none. -/
def slotsClaimed (n pick cur e : Nat) : Nat :=
  if e < pick then n else if e = pick then cur else 0

/-- Number of completed counter updates (line 409) for epoch `e`, given
the current `current_put_epoch` and `done_in_current_epoch`: every epoch
before the put epoch was fully published (`n` updates), the put epoch has
`done` of them, later epochs none. -/
def pubDone (n put done e : Nat) : Nat :=
  if e < put then n else if e = put then done else 0

/-- Number of terminators in a message log. -/
def termCt (l : List Msg) : Nat :=
  l.countP (fun m => m = Msg.term)

/-- Number of epoch-`e` item messages in a message log. -/
def itemCt (e : Nat) (l : List Msg) : Nat :=
  l.countP (fun m => m = Msg.item e)

/-- Left-to-right well-formedness scan of the queue log, tracking the
epoch currently being published and the number of its items seen so far:
an item message must carry the current epoch, a terminator requires
exactly `n` items of the epoch and opens the next one. -/
def stepMsg (n : Nat) : Msg → Nat × Nat → Option (Nat × Nat)
  | .item e, (ep, c) => if e = ep then some (ep, c + 1) else none
  | .term, (ep, c) => if c = n then some (ep + 1, 0) else none

/-- Fold `stepMsg` over a log. -/
def scanLog (n : Nat) : List Msg → Nat × Nat → Option (Nat × Nat)
  | [], st => some st
  | m :: rest, st => (stepMsg n m st).bind (scanLog n rest)

/-- The inductive invariant of the bounded-mode system (`num_sketches`
stored as `n ≥ 1`):

* `hcur`: the next slot index stays below `n`;
* `hcons`: slot conservation — every slot of epoch `e` handed out is held
  by a worker in flight (`computing`/`ready`/`didPut`), was fully
  published (counted by `pubDone`), or is held by a dead worker;
* `hturn`: a worker past the wait loop (`ready`/`didPut`) is publishing
  into the current put epoch;
* `hlog`: scanning the queue log succeeds and lands exactly on the put
  epoch with `done_in_current_epoch` plus the not-yet-counted enqueued
  items of that epoch;
* `hple`: `current_put_epoch ≤ current_pick_epoch`. -/
structure Inv (n : Nat) (s : SysState) : Prop where
  hcur : s.cur < n
  hcons : ∀ e, slotsClaimed n s.pick s.cur e =
    compCt e s.workers + readyCt e s.workers + dpCt e s.workers
      + pubDone n s.put s.done e + lostCt e s.workers
  hturn : ∀ e, readyCt e s.workers + dpCt e s.workers ≠ 0 → s.put = e
  hlog : scanLog n s.log (0, 0) = some (s.put, s.done + dpCt s.put s.workers)
  hple : s.put ≤ s.pick

/-- Intermediate state of the four-step sample run used by the witnesses:
one worker, one sketch per epoch, one epoch; after the worker claimed
slot 0 of epoch 0 (which closed the pick epoch). -/
def chainS1 : SysState :=
  ⟨1, 0, 0, 0, false, false, [], {Phase.computing 0}⟩

/-- After the worker observed `current_put_epoch == 0` and left the wait
loop. -/
def chainS2 : SysState :=
  ⟨1, 0, 0, 0, false, false, [], {Phase.ready 0}⟩

/-- After the worker enqueued its item message. -/
def chainS3 : SysState :=
  ⟨1, 0, 0, 0, false, false, [Msg.item 0], {Phase.didPut 0}⟩

/-- After the worker's counter update published the epoch terminator. -/
def chainEnd : SysState :=
  ⟨1, 1, 0, 0, false, false, [Msg.item 0, Msg.term], {Phase.claiming}⟩

/-! ## Lemmas: the accumulation loop -/

theorem sketchLoop_stop {α β : Type} (f : α → β) (k : Nat)
    (batches : List (List α)) (pos : Nat) (p : Option (List β)) (h : k ≤ pos) :
    sketchLoop f (some k) batches pos p = ⟨p, pos, false, batches⟩ := by
  have hc : ¬ pos < k := Nat.not_lt.mpr h
  rw [sketchLoop.eq_def]
  simp [loopCond, hc]

/-- With a budget `k` and at least `k - pos` further samples available, the
loop fills the buffer to exactly `k` rows — the images of the first
`k - pos` remaining samples — and stops without warning. -/
theorem sketchLoop_fills {α β : Type} (f : α → β) (k : Nat) :
    ∀ (batches : List (List α)) (pos : Nat) (p : Option (List β)),
      pos < k → k ≤ pos + totalSamples batches →
      (sketchLoop f (some k) batches pos p).processed
          = some (p.getD [] ++ ((batches.flatten.take (k - pos)).map f))
        ∧ (sketchLoop f (some k) batches pos p).pos = k
        ∧ (sketchLoop f (some k) batches pos p).warned = false := by
  intro batches
  induction batches with
  | nil =>
    intro pos p h1 h2
    simp [totalSamples] at h2
    omega
  | cons b rest ih =>
    intro pos p h1 h2
    have hc : loopCond (some k) pos = true := by simp [loopCond, h1]
    rw [sketchLoop]
    simp only [hc, if_true]
    have hbt : batchTake (some k) pos b.length = min b.length (k - pos) := rfl
    have htot : totalSamples (b :: rest) = b.length + totalSamples rest := by
      simp [totalSamples]
    by_cases hbig : k - pos ≤ b.length
    · -- the current batch completes the budget
      have hn : batchTake (some k) pos b.length = k - pos := by
        rw [hbt]; omega
      have hstop : k ≤ pos + batchTake (some k) pos b.length := by omega
      rw [hn] at hstop ⊢
      rw [sketchLoop_stop f k rest _ _ hstop]
      have hpos : pos + (k - pos) = k := by omega
      have htake : (b ++ rest.flatten).take (k - pos) = b.take (k - pos) := by
        rw [List.take_append_eq_append_take]
        have : k - pos - b.length = 0 := by omega
        simp [this]
      simp [hpos, htake]
    · -- the whole batch is consumed and the loop continues
      push_neg at hbig
      have hn : batchTake (some k) pos b.length = b.length := by
        rw [hbt]; omega
      rw [hn]
      have h1' : pos + b.length < k := by omega
      have h2' : k ≤ pos + b.length + totalSamples rest := by omega
      obtain ⟨hp, hq, hr⟩ := ih (pos + b.length) _ h1' h2'
      refine ⟨?_, hq, hr⟩
      rw [hp]
      have htake : (b ++ rest.flatten).take (k - pos)
          = b ++ rest.flatten.take (k - pos - b.length) := by
        rw [List.take_append_eq_append_take]
        have : b.take (k - pos) = b := List.take_of_length_le (by omega)
        rw [this]
      have hsub : k - (pos + b.length) = k - pos - b.length := by omega
      simp only [Option.getD_some, List.flatten_cons, htake, List.take_length,
        List.map_append, List.append_assoc, hsub]

/-- With a budget `k` strictly larger than what the remaining source
offers, the loop consumes everything, warns, and ends at
`pos + totalSamples batches`. -/
theorem sketchLoop_exhausts {α β : Type} (f : α → β) (k : Nat) :
    ∀ (batches : List (List α)) (pos : Nat) (acc : List β),
      pos + totalSamples batches < k →
      sketchLoop f (some k) batches pos (some acc)
        = ⟨some (acc ++ batches.flatten.map f), pos + totalSamples batches,
            true, []⟩ := by
  intro batches
  induction batches with
  | nil =>
    intro pos acc h
    have h1 : pos < k := by simp [totalSamples] at h ⊢; omega
    have hc : loopCond (some k) pos = true := by simp [loopCond, h1]
    rw [sketchLoop]
    simp [hc, totalSamples, Option.isSome]
  | cons b rest ih =>
    intro pos acc h
    have htot : totalSamples (b :: rest) = b.length + totalSamples rest := by
      simp [totalSamples]
    have h1 : pos < k := by omega
    have hc : loopCond (some k) pos = true := by simp [loopCond, h1]
    rw [sketchLoop]
    simp only [hc, if_true]
    have hn : batchTake (some k) pos b.length = b.length := by
      simp [batchTake]; omega
    rw [hn]
    have h' : pos + b.length + totalSamples rest < k := by omega
    rw [List.take_length]
    have := ih (pos + b.length) (acc ++ b.map f) h'
    simp only [Option.getD_some] at this ⊢
    rw [this]
    simp [htot]
    omega

/-- Once a batch was obtained the buffer stays allocated. -/
theorem sketchLoop_some {α β : Type} (f : α → β) (ne : Option Nat) :
    ∀ (batches : List (List α)) (pos : Nat) (acc : List β),
      (sketchLoop f ne batches pos (some acc)).processed ≠ none := by
  intro batches
  induction batches with
  | nil =>
    intro pos acc
    rw [sketchLoop]
    by_cases hc : loopCond ne pos = true <;> simp [hc]
  | cons b rest ih =>
    intro pos acc
    rw [sketchLoop]
    by_cases hc : loopCond ne pos = true <;> simp [hc]
    exact ih _ _

/-- If the loop never allocated the buffer, it never consumed a sample:
its final position is its starting position. -/
theorem sketchLoop_none_pos {α β : Type} (f : α → β) (ne : Option Nat) :
    ∀ (batches : List (List α)) (pos : Nat) (p : Option (List β)),
      (sketchLoop f ne batches pos p).processed = none →
      (sketchLoop f ne batches pos p).pos = pos := by
  intro batches
  induction batches with
  | nil =>
    intro pos p _
    rw [sketchLoop]
    by_cases hc : loopCond ne pos = true <;> simp [hc]
  | cons b rest ih =>
    intro pos p hnone
    rw [sketchLoop] at hnone ⊢
    by_cases hc : loopCond ne pos = true <;> simp [hc] at hnone ⊢
    exact absurd hnone (sketchLoop_some f ne rest _ _)

/-! ## Claims about the quantile sketch routine -/

/-- C5 counterexample: with the budget `num_examples = 0` and a source
offering one sample (`m = 0 ≥ k = 0`), the routine does not compute a
sketch from `0` samples — the loop requests no batch, `processed` stays
`None`, and the `'Did not get any data'` exception is raised. -/
theorem sketchOne_zero_budget_fails :
    sketchOne (fun x : Nat => x) (some 0) [[5]] = .error () := by
  rfl

/-- C5 (amended): for every budget `k ≥ 1` and source offering at least
`k` samples, the routine succeeds without warning and hands `Percentile`
exactly the images of the first `k` samples — `k` rows. -/
theorem sketchOne_exact_budget {α β : Type} (f : α → β) (k : Nat)
    (batches : List (List α)) (hk : 1 ≤ k) (hm : k ≤ totalSamples batches) :
    sketchOne f (some k) batches = .ok ((batches.flatten.take k).map f, false)
      ∧ ((batches.flatten.take k).map f).length = k := by
  obtain ⟨hp, hq, hr⟩ := sketchLoop_fills f k batches 0 none hk (by omega)
  have hlen : batches.flatten.length = totalSamples batches := by
    simp [totalSamples, List.length_flatten]
  constructor
  · simp only [sketchOne]
    rw [hp, hq, hr]
    simp only [Nat.sub_zero, Option.getD_none, List.nil_append]
    have : ((batches.flatten.take k).map f).take k = (batches.flatten.take k).map f := by
      apply List.take_of_length_le
      simp [List.length_take]
    rw [this]
  · simp only [List.length_map, List.length_take]
    omega

/-- C5 witness: the amended theorem at `k = 2`,
`batches = [[1, 2], [3]]`, `f = Nat.succ`. -/
theorem sketchOne_exact_budget_witness :
    sketchOne Nat.succ (some 2) [[1, 2], [3]] = .ok ([2, 3], false) := by
  rw [(sketchOne_exact_budget Nat.succ 2 [[1, 2], [3]] (by decide) (by decide)).1]
  rfl

/-- C6: for every budget `k` and source exhausted after `m` samples with
`0 < m < k`, the routine succeeds, warns, and hands `Percentile` exactly
the images of the `m` samples obtained. -/
theorem sketchOne_short_source {α β : Type} (f : α → β) (k : Nat)
    (batches : List (List α)) (h0 : 0 < totalSamples batches)
    (hk : totalSamples batches < k) :
    sketchOne f (some k) batches = .ok (batches.flatten.map f, true) := by
  cases batches with
  | nil => simp [totalSamples] at h0
  | cons b rest =>
    have htot : totalSamples (b :: rest) = b.length + totalSamples rest := by
      simp [totalSamples]
    unfold sketchOne
    rw [sketchLoop]
    have h1 : (0 : Nat) < k := by omega
    have hc : loopCond (some k) 0 = true := by simp [loopCond, h1]
    simp only [hc, if_true]
    have hn : batchTake (some k) 0 b.length = b.length := by
      simp [batchTake]; omega
    rw [hn, List.take_length]
    have hlt : 0 + b.length + totalSamples rest < k := by omega
    rw [sketchLoop_exhausts f k rest (0 + b.length) _ hlt]
    simp only [Option.getD_none, List.nil_append]
    have hflat : rest.flatten.length = totalSamples rest := by
      simp [totalSamples, List.length_flatten]
    have hlen2 : (b.map f ++ rest.flatten.map f).length
        = b.length + rest.flatten.length := by
      rw [List.length_append, List.length_map, List.length_map]
    have htk : (b.map f ++ rest.flatten.map f).take (0 + b.length + totalSamples rest)
        = b.map f ++ rest.flatten.map f := by
      apply List.take_of_length_le
      rw [hlen2]
      omega
    rw [htk]
    simp [List.flatten_cons, List.map_append]

/-- C6 witness: the theorem at `k = 5`, `batches = [[1], [2]]`,
`f = Nat.succ`. -/
theorem sketchOne_short_source_witness :
    sketchOne Nat.succ (some 5) [[1], [2]] = .ok ([2, 3], true) := by
  rw [sketchOne_short_source Nat.succ 5 [[1], [2]] (by decide) (by decide)]
  rfl

/-- C7: the routine fails with the empty-source exception whenever the
data source yields no batch at all, and when it fails this way the loop
obtained no batch and accumulated zero samples. -/
theorem sketchOne_empty_error {α β : Type} (f : α → β) (ne : Option Nat)
    (batches : List (List α)) :
    (sketchOne f ne [] = .error ())
      ∧ (sketchOne f ne batches = .error () →
          (sketchLoop f ne batches 0 none).pos = 0
            ∧ (sketchLoop f ne batches 0 none).processed = none) := by
  constructor
  · unfold sketchOne
    rw [sketchLoop]
    by_cases hc : loopCond ne 0 = true <;> simp [hc]
  · intro herr
    simp only [sketchOne] at herr
    have hproc : (sketchLoop f ne batches 0 none).processed = none := by
      cases hproc2 : (sketchLoop f ne batches 0 none).processed with
      | none => rfl
      | some v => rw [hproc2] at herr; simp at herr
    exact ⟨sketchLoop_none_pos f ne batches 0 none hproc, hproc⟩

/-- C7 witness: the theorem at `f = id`, `ne = some 3`, the empty
source. -/
theorem sketchOne_empty_error_witness :
    (sketchLoop (fun x : Nat => x) (some 3) ([] : List (List Nat)) 0 none).pos = 0 :=
  ((sketchOne_empty_error (fun x : Nat => x) (some 3) []).2 (by rfl)).1

/-! ## Claims about `Sketcher.__call__` -/

/-- C8 counterexample: with no default iterator and a supplied data source
of unrecognized kind, the call raises the `to_iterator` exception — it
does not proceed into the quantile sketch routine. -/
theorem call_unknown_source_not_sketch :
    sketcherCall none (some 3) 0 (some .unknown) none = .unsupportedSource
      ∧ (sketcherCall none (some 3) 0 (some .unknown) none).reachesSketch = false := by
  decide

/-- C8 (amended): the call fails with the no-default-data exception
exactly when no default iterator is stored and no data is supplied; with
no data it proceeds into `sketch` on the stored iterator, and with
supplied data of a recognized kind it proceeds on the converted data,
while an unrecognized supplied source fails with the `to_iterator`
exception instead. -/
theorem sketcherCall_characterization (si : Option SrcKind) (ne : Option Nat)
    (sp : Nat) (d : Option SrcKind) (p : Option Nat) :
    (sketcherCall si ne sp d p = .noDefaultData ↔ (si = none ∧ d = none))
      ∧ (∀ it, d = none → si = some it →
          sketcherCall si ne sp d p = .sketchCall (some it) ne (p.getD sp))
      ∧ (∀ k, d = some k → k ≠ .unknown →
          sketcherCall si ne sp d p = .sketchCall (some k) none (p.getD sp))
      ∧ (d = some .unknown → sketcherCall si ne sp d p = .unsupportedSource) := by
  rcases d with _ | k
  · cases si <;> simp [sketcherCall]
  · cases k <;> cases si <;> simp [sketcherCall, toIteratorOpt]

/-- C8 witness: the amended theorem applied with no stored iterator and no
supplied data. -/
theorem sketcherCall_characterization_witness :
    sketcherCall none (some 2) 7 none none = .noDefaultData :=
  ((sketcherCall_characterization none (some 2) 7 none none).1).mpr ⟨rfl, rfl⟩

/-- C10: when data is supplied (and recognized), the budget passed into
the quantile routine is `None`, ignoring the stored one; the stored budget
is passed exactly when the call falls back to the stored iterator. -/
theorem call_budget_dispatch (si : Option SrcKind) (sne : Option Nat)
    (sp : Nat) (d : SrcKind) (p : Option Nat) :
    (d ≠ .unknown →
      sketcherCall si sne sp (some d) p = .sketchCall (some d) none (p.getD sp))
      ∧ (∀ it, si = some it →
          sketcherCall si sne sp none p = .sketchCall (some it) sne (p.getD sp)) := by
  constructor
  · intro hd
    cases d <;> simp_all [sketcherCall, toIteratorOpt]
  · rintro it rfl
    simp [sketcherCall]

/-- C10 witness: an explicit data argument of kind `dataset` with a stored
budget of `9`: the budget handed to `sketch` is `None`. -/
theorem call_budget_dispatch_witness :
    sketcherCall (some .tensor) (some 9) 0 (some .dataset) none
      = .sketchCall (some .dataset) none 0 :=
  (call_budget_dispatch (some .tensor) (some 9) 0 .dataset none).1 (by decide)

/-! ## Claims about `Sketcher.stream` setup -/

/-- C3 counterexample: with a caller-supplied `maxId = 5` and a module
source of length `100`, the unbounded claiming step can draw the id `50`,
which is outside `[0, maxId)` for the `max_id` recorded in the shared
record at stream start. -/
theorem unbounded_draw_ignores_max_id :
    50 ∈ unboundedDrawSupport (some 100)
      ∧ streamMaxId (some 5) false 100 = 5
      ∧ ¬ 50 < streamMaxId (some 5) false 100 := by
  decide

/-- C3 (amended): in unbounded mode every claimable id lies in `[0, B)`
with `B = len(modules)` when the module source has a length and
`B = 32767` otherwise; the shared record's `max_id` is not consulted, and
`B` coincides with it exactly in the default configurations (no caller
`maxId`, with a non-`ModulesDataset` of known length, or a lengthless
`ModulesDataset`). -/
theorem unbounded_draw_range (len : Nat) (id : Nat) :
    (id ∈ unboundedDrawSupport (some len) ↔ id < len)
      ∧ (id ∈ unboundedDrawSupport none ↔ id < 32767)
      ∧ workerUnboundedHigh (some len) = streamMaxId none false len
      ∧ workerUnboundedHigh none = streamMaxId none true len := by
  simp [unboundedDrawSupport, workerUnboundedHigh, streamMaxId, Finset.mem_range]

/-- C4: `startStream` with `itemsPerEpoch = -2` fails — the stored
`num_sketches` is normalized to `-1` but the `sketch_list` branch tests
the raw argument against `-1`, so it calls `torch.randint` with the
negative size `-1` and raises — while `-1` itself sets up the unbounded
stream with no pre-drawn list, as the code's own CLI help
(`'If negative, take an infinite number of them.'`) promises for every
negative value. -/
theorem startStreamSetup_neg_two_fails :
    startStreamSetup (-2) 10 = none
      ∧ startStreamSetup (-1) 10 = some ⟨-1, none⟩ := by
  decide

/-- C9 counterexample: on a host with `availableParallelism = 20000001`,
the claimed worker count is `max(1, (20000001 - 1) / 2) = 10^7`, but the
code's `min` with the float sentinel `1e7` selects the float, which
escapes into `range(...)` — no workers are launched. -/
theorem resolveNumWorkers_huge_cpu :
    resolveNumWorkers (-1) 20000001 = none
      ∧ max 1 ((20000001 - 1) / 2) = 10000000 := by
  decide

/-- C9 (amended): for every negative `workerCount`, whenever
`(cpuCount - 1) / 2 < 10^7` (true on any real machine) the number of
workers launched is `max(1, floor((cpuCount - 1) / 2))`, which is at
least `1`. -/
theorem resolveNumWorkers_neg (w : Int) (cpu : Nat) (hw : w < 0)
    (hcpu : (cpu - 1) / 2 < 10000000) :
    resolveNumWorkers w cpu = some ((max 1 ((cpu - 1) / 2) : Nat) : Int)
      ∧ 1 ≤ (max 1 ((cpu - 1) / 2) : Nat) := by
  refine ⟨?_, le_max_left _ _⟩
  simp [resolveNumWorkers, hw, hcpu]

/-- C9 witness: the amended theorem on a 4-CPU host with
`workerCount = -1`: one worker is launched. -/
theorem resolveNumWorkers_neg_witness :
    resolveNumWorkers (-1) 4 = some 1 :=
  (resolveNumWorkers_neg (-1) 4 (by decide) (by decide)).1

/-! ## Lemmas: worker counters -/

theorem compCt_cons (e : Nat) (p : Phase) (w : Multiset Phase) :
    compCt e (p ::ₘ w) = compCt e w + if p = Phase.computing e then 1 else 0 :=
  Multiset.countP_cons _ p w

theorem readyCt_cons (e : Nat) (p : Phase) (w : Multiset Phase) :
    readyCt e (p ::ₘ w) = readyCt e w + if p = Phase.ready e then 1 else 0 :=
  Multiset.countP_cons _ p w

theorem dpCt_cons (e : Nat) (p : Phase) (w : Multiset Phase) :
    dpCt e (p ::ₘ w) = dpCt e w + if p = Phase.didPut e then 1 else 0 :=
  Multiset.countP_cons _ p w

theorem lostCt_cons (e : Nat) (p : Phase) (w : Multiset Phase) :
    lostCt e (p ::ₘ w) = lostCt e w + if p = Phase.dead (some e) then 1 else 0 :=
  Multiset.countP_cons _ p w

theorem compCt_replicate (e W : Nat) :
    compCt e (Multiset.replicate W Phase.claiming) = 0 := by
  induction W with
  | zero => rfl
  | succ W ih => rw [Multiset.replicate_succ, compCt_cons, ih]; simp

theorem readyCt_replicate (e W : Nat) :
    readyCt e (Multiset.replicate W Phase.claiming) = 0 := by
  induction W with
  | zero => rfl
  | succ W ih => rw [Multiset.replicate_succ, readyCt_cons, ih]; simp

theorem dpCt_replicate (e W : Nat) :
    dpCt e (Multiset.replicate W Phase.claiming) = 0 := by
  induction W with
  | zero => rfl
  | succ W ih => rw [Multiset.replicate_succ, dpCt_cons, ih]; simp

theorem lostCt_replicate (e W : Nat) :
    lostCt e (Multiset.replicate W Phase.claiming) = 0 := by
  induction W with
  | zero => rfl
  | succ W ih => rw [Multiset.replicate_succ, lostCt_cons, ih]; simp

/-! ## Lemmas: the queue-log scan -/

theorem scanLog_append (n : Nat) (l1 l2 : List Msg) (st : Nat × Nat) :
    scanLog n (l1 ++ l2) st = (scanLog n l1 st).bind (scanLog n l2) := by
  induction l1 generalizing st with
  | nil => simp [scanLog]
  | cons m rest ih =>
    simp only [List.cons_append, scanLog]
    cases stepMsg n m st with
    | none => simp
    | some st' => simp [ih]

theorem termCt_cons (m : Msg) (l : List Msg) :
    termCt (m :: l) = termCt l + if m = Msg.term then 1 else 0 := by
  simp only [termCt, List.countP_cons]
  split <;> simp_all

theorem itemCt_cons (e : Nat) (m : Msg) (l : List Msg) :
    itemCt e (m :: l) = itemCt e l + if m = Msg.item e then 1 else 0 := by
  simp only [itemCt, List.countP_cons]
  split <;> simp_all

/-- What a successful scan tells about a log: the epoch advanced by the
number of terminators, and the item counter of the final epoch counts its
item messages (plus the inherited counter when no terminator was
crossed). -/
theorem scanLog_counts (n : Nat) :
    ∀ (l : List Msg) (ep0 c0 ep1 c1 : Nat),
      scanLog n l (ep0, c0) = some (ep1, c1) →
      ep0 ≤ ep1 ∧ termCt l + ep0 = ep1
        ∧ itemCt ep1 l + (if ep0 = ep1 then c0 else 0) = c1 := by
  intro l
  induction l with
  | nil =>
    intro ep0 c0 ep1 c1 h
    simp [scanLog] at h
    obtain ⟨h1, h2⟩ := h
    subst h1; subst h2
    simp [termCt, itemCt]
  | cons m rest ih =>
    intro ep0 c0 ep1 c1 h
    simp only [scanLog] at h
    cases m with
    | item e =>
      simp only [stepMsg] at h
      by_cases he : e = ep0
      · subst he
        rw [if_pos rfl] at h
        simp only [Option.some_bind] at h
        obtain ⟨hle, hterm, hitem⟩ := ih e (c0 + 1) ep1 c1 h
        refine ⟨hle, ?_, ?_⟩
        · rw [termCt_cons]
          rw [if_neg (by simp : ¬ (Msg.item e = Msg.term))]
          omega
        · rw [itemCt_cons]
          simp only [Msg.item.injEq]
          split_ifs at hitem ⊢ <;> omega
      · rw [if_neg he] at h
        simp at h
    | term =>
      simp only [stepMsg] at h
      by_cases hc : c0 = n
      · rw [if_pos hc] at h
        simp only [Option.some_bind] at h
        obtain ⟨hle, hterm, hitem⟩ := ih (ep0 + 1) 0 ep1 c1 h
        have hne : ep0 ≠ ep1 := by omega
        refine ⟨by omega, ?_, ?_⟩
        · rw [termCt_cons, if_pos rfl]
          omega
        · rw [itemCt_cons]
          rw [if_neg (by simp : ¬ (Msg.term = Msg.item ep1)), if_neg hne]
          have h0 : (if ep0 + 1 = ep1 then (0 : Nat) else 0) = 0 := by
            split <;> rfl
          rw [h0] at hitem
          omega
      · rw [if_neg hc] at h
        simp at h

/-! ## The inductive invariant -/

/-! ## The inductive invariant -/

theorem inv_init (n W : Nat) (hn : 1 ≤ n) : Inv n (initState W) := by
  refine ⟨hn, ?_, ?_, ?_, Nat.le_refl 0⟩
  · intro e
    show slotsClaimed n 0 0 e
        = compCt e (Multiset.replicate W .claiming)
          + readyCt e (Multiset.replicate W .claiming)
          + dpCt e (Multiset.replicate W .claiming)
          + pubDone n 0 0 e + lostCt e (Multiset.replicate W .claiming)
    simp [slotsClaimed, pubDone, compCt_replicate, readyCt_replicate,
      dpCt_replicate, lostCt_replicate]
  · intro e hne
    simp [initState, readyCt_replicate, dpCt_replicate] at hne
  · simp [initState, scanLog, dpCt_replicate]

theorem inv_step {n E : Nat} (hn : 1 ≤ n) {s s' : SysState}
    (inv : Inv n s) (hstep : Step (n : Int) E s s') : Inv n s' := by
  obtain ⟨h1, h2, h3, h4, h5⟩ := inv
  cases hstep with
  | claimLast rest hw hpse hE hid =>
    have hcurn : s.cur + 1 = n := by omega
    refine ⟨hn, ?_, ?_, ?_, ?_⟩
    · intro e
      have hce := h2 e
      rw [hw, compCt_cons, readyCt_cons, dpCt_cons, lostCt_cons] at hce
      show slotsClaimed n (s.pick + 1) 0 e
          = compCt e (.computing s.pick ::ₘ rest)
            + readyCt e (.computing s.pick ::ₘ rest)
            + dpCt e (.computing s.pick ::ₘ rest)
            + pubDone n s.put s.done e
            + lostCt e (.computing s.pick ::ₘ rest)
      rw [compCt_cons, readyCt_cons, dpCt_cons, lostCt_cons]
      simp only [slotsClaimed, pubDone, Phase.computing.injEq, reduceCtorEq,
        if_false] at hce ⊢
      split_ifs at hce ⊢ <;> omega
    · intro e hne
      rw [readyCt_cons, dpCt_cons] at hne
      simp only [reduceCtorEq, if_false] at hne
      apply h3 e
      rw [hw, readyCt_cons, dpCt_cons]
      simp only [reduceCtorEq, if_false]
      omega
    · show scanLog n s.log (0, 0)
        = some (s.put, s.done + dpCt s.put (.computing s.pick ::ₘ rest))
      rw [dpCt_cons]
      simp only [reduceCtorEq, if_false, Nat.add_zero]
      rw [hw, dpCt_cons] at h4
      simpa using h4
    · show s.put ≤ s.pick + 1
      omega
  | claimNext rest hw hpse hE hid =>
    have hcur' : s.cur + 1 < n := by omega
    refine ⟨hcur', ?_, ?_, ?_, ?_⟩
    · intro e
      have hce := h2 e
      rw [hw, compCt_cons, readyCt_cons, dpCt_cons, lostCt_cons] at hce
      show slotsClaimed n s.pick (s.cur + 1) e
          = compCt e (.computing s.pick ::ₘ rest)
            + readyCt e (.computing s.pick ::ₘ rest)
            + dpCt e (.computing s.pick ::ₘ rest)
            + pubDone n s.put s.done e
            + lostCt e (.computing s.pick ::ₘ rest)
      rw [compCt_cons, readyCt_cons, dpCt_cons, lostCt_cons]
      simp only [slotsClaimed, pubDone, Phase.computing.injEq, reduceCtorEq,
        if_false] at hce ⊢
      split_ifs at hce ⊢ <;> omega
    · intro e hne
      rw [readyCt_cons, dpCt_cons] at hne
      simp only [reduceCtorEq, if_false] at hne
      apply h3 e
      rw [hw, readyCt_cons, dpCt_cons]
      simp only [reduceCtorEq, if_false]
      omega
    · show scanLog n s.log (0, 0)
        = some (s.put, s.done + dpCt s.put (.computing s.pick ::ₘ rest))
      rw [dpCt_cons]
      simp only [reduceCtorEq, if_false, Nat.add_zero]
      rw [hw, dpCt_cons] at h4
      simpa using h4
    · show s.put ≤ s.pick
      exact h5
  | claimDie rest hw hpse hE =>
    refine ⟨h1, ?_, ?_, ?_, h5⟩
    · intro e
      have hce := h2 e
      rw [hw, compCt_cons, readyCt_cons, dpCt_cons, lostCt_cons] at hce
      show slotsClaimed n s.pick s.cur e
          = compCt e (.dead none ::ₘ rest) + readyCt e (.dead none ::ₘ rest)
            + dpCt e (.dead none ::ₘ rest) + pubDone n s.put s.done e
            + lostCt e (.dead none ::ₘ rest)
      rw [compCt_cons, readyCt_cons, dpCt_cons, lostCt_cons]
      simp only [reduceCtorEq, if_false, Phase.dead.injEq,
        Option.some.injEq] at hce ⊢
      simpa using hce
    · intro e hne
      rw [readyCt_cons, dpCt_cons] at hne
      simp only [reduceCtorEq, if_false] at hne
      apply h3 e
      rw [hw, readyCt_cons, dpCt_cons]
      simp only [reduceCtorEq, if_false]
      omega
    · show scanLog n s.log (0, 0)
        = some (s.put, s.done + dpCt s.put (.dead none ::ₘ rest))
      rw [dpCt_cons]
      simp only [reduceCtorEq, if_false, Nat.add_zero]
      rw [hw, dpCt_cons] at h4
      simpa using h4
  | observeTurn rest e hw he =>
    subst he
    refine ⟨h1, ?_, ?_, ?_, h5⟩
    · intro e
      have hce := h2 e
      rw [hw, compCt_cons, readyCt_cons, dpCt_cons, lostCt_cons] at hce
      show slotsClaimed n s.pick s.cur e
          = compCt e (.ready s.put ::ₘ rest) + readyCt e (.ready s.put ::ₘ rest)
            + dpCt e (.ready s.put ::ₘ rest) + pubDone n s.put s.done e
            + lostCt e (.ready s.put ::ₘ rest)
      rw [compCt_cons, readyCt_cons, dpCt_cons, lostCt_cons]
      simp only [Phase.computing.injEq, Phase.ready.injEq, reduceCtorEq,
        if_false] at hce ⊢
      split_ifs at hce ⊢ <;> omega
    · intro e hne
      rw [readyCt_cons, dpCt_cons] at hne
      simp only [Phase.ready.injEq, reduceCtorEq, if_false] at hne
      by_cases hee : s.put = e
      · exact hee
      · apply h3 e
        rw [hw, readyCt_cons, dpCt_cons]
        simp only [Phase.computing.injEq, reduceCtorEq, if_false]
        split_ifs at hne
        omega
    · show scanLog n s.log (0, 0)
        = some (s.put, s.done + dpCt s.put (.ready s.put ::ₘ rest))
      rw [dpCt_cons]
      simp only [reduceCtorEq, if_false, Nat.add_zero]
      rw [hw, dpCt_cons] at h4
      simpa using h4
  | waitDie rest e hw hne hd =>
    refine ⟨h1, ?_, ?_, ?_, h5⟩
    · intro e'
      have hce := h2 e'
      rw [hw, compCt_cons, readyCt_cons, dpCt_cons, lostCt_cons] at hce
      show slotsClaimed n s.pick s.cur e'
          = compCt e' (.dead (some e) ::ₘ rest)
            + readyCt e' (.dead (some e) ::ₘ rest)
            + dpCt e' (.dead (some e) ::ₘ rest) + pubDone n s.put s.done e'
            + lostCt e' (.dead (some e) ::ₘ rest)
      rw [compCt_cons, readyCt_cons, dpCt_cons, lostCt_cons]
      simp only [Phase.computing.injEq, Phase.dead.injEq, Option.some.injEq,
        reduceCtorEq, if_false] at hce ⊢
      split_ifs at hce ⊢ <;> omega
    · intro e' hne'
      rw [readyCt_cons, dpCt_cons] at hne'
      simp only [reduceCtorEq, if_false] at hne'
      apply h3 e'
      rw [hw, readyCt_cons, dpCt_cons]
      simp only [reduceCtorEq, if_false]
      omega
    · show scanLog n s.log (0, 0)
        = some (s.put, s.done + dpCt s.put (.dead (some e) ::ₘ rest))
      rw [dpCt_cons]
      simp only [reduceCtorEq, if_false, Nat.add_zero]
      rw [hw, dpCt_cons] at h4
      simpa using h4
  | enqueueItem rest e hw =>
    have hput : s.put = e := by
      apply h3 e
      rw [hw, readyCt_cons, dpCt_cons]
      simp
    subst hput
    refine ⟨h1, ?_, ?_, ?_, h5⟩
    · intro e'
      have hce := h2 e'
      rw [hw, compCt_cons, readyCt_cons, dpCt_cons, lostCt_cons] at hce
      show slotsClaimed n s.pick s.cur e'
          = compCt e' (.didPut s.put ::ₘ rest)
            + readyCt e' (.didPut s.put ::ₘ rest)
            + dpCt e' (.didPut s.put ::ₘ rest) + pubDone n s.put s.done e'
            + lostCt e' (.didPut s.put ::ₘ rest)
      rw [compCt_cons, readyCt_cons, dpCt_cons, lostCt_cons]
      simp only [Phase.ready.injEq, Phase.didPut.injEq, reduceCtorEq,
        if_false] at hce ⊢
      split_ifs at hce ⊢ <;> omega
    · intro e' hne'
      rw [readyCt_cons, dpCt_cons] at hne'
      simp only [Phase.didPut.injEq, reduceCtorEq, if_false] at hne'
      by_cases hee : s.put = e'
      · exact hee
      · apply h3 e'
        rw [hw, readyCt_cons, dpCt_cons]
        simp only [Phase.ready.injEq, reduceCtorEq, if_false]
        split_ifs at hne'
        omega
    · show scanLog n (s.log ++ [Msg.item s.put]) (0, 0)
        = some (s.put, s.done + dpCt s.put (.didPut s.put ::ₘ rest))
      rw [scanLog_append, h4]
      rw [hw, dpCt_cons] at h4
      rw [dpCt_cons]
      simp only [Phase.didPut.injEq, reduceCtorEq, if_false, if_pos rfl,
        Nat.add_zero, Option.some_bind]
      have hdps : dpCt s.put (Phase.ready s.put ::ₘ rest) = dpCt s.put rest := by
        rw [dpCt_cons]
        simp
      rw [hw, hdps]
      simp [scanLog, stepMsg, Nat.add_assoc]
  | publishLast rest e hw hdone =>
    have hput : s.put = e := by
      apply h3 e
      rw [hw, readyCt_cons, dpCt_cons]
      simp
    subst hput
    have hdn : s.done + 1 = n := by omega
    have hpd0 : pubDone n s.put s.done s.put = s.done := by
      simp [pubDone]
    have hsum : slotsClaimed n s.pick s.cur s.put
        = compCt s.put rest + readyCt s.put rest + (dpCt s.put rest + 1)
          + s.done + lostCt s.put rest := by
      have hce0 := h2 s.put
      rw [hw, compCt_cons, readyCt_cons, dpCt_cons, lostCt_cons, hpd0] at hce0
      simp at hce0
      omega
    have hslots_le : slotsClaimed n s.pick s.cur s.put ≤ n := by
      simp only [slotsClaimed]
      split_ifs <;> omega
    have hz1 : compCt s.put rest = 0 := by omega
    have hz2 : readyCt s.put rest = 0 := by omega
    have hz3 : dpCt s.put rest = 0 := by omega
    have hz4 : lostCt s.put rest = 0 := by omega
    have hslots_eq : slotsClaimed n s.pick s.cur s.put = n := by omega
    have hlt : s.put < s.pick := by
      simp only [slotsClaimed] at hslots_eq
      split_ifs at hslots_eq <;> omega
    refine ⟨h1, ?_, ?_, ?_, ?_⟩
    · intro e'
      have hce := h2 e'
      rw [hw, compCt_cons, readyCt_cons, dpCt_cons, lostCt_cons] at hce
      show slotsClaimed n s.pick s.cur e'
          = compCt e' (.claiming ::ₘ rest) + readyCt e' (.claiming ::ₘ rest)
            + dpCt e' (.claiming ::ₘ rest) + pubDone n (s.put + 1) 0 e'
            + lostCt e' (.claiming ::ₘ rest)
      rw [compCt_cons, readyCt_cons, dpCt_cons, lostCt_cons]
      by_cases hee : e' = s.put
      · subst hee
        simp only [Phase.didPut.injEq, reduceCtorEq, if_false, if_pos rfl,
          Nat.add_zero] at hce ⊢
        simp only [slotsClaimed, pubDone] at hce ⊢
        split_ifs at hce ⊢ <;> omega
      · simp only [Phase.didPut.injEq, reduceCtorEq, if_false,
          if_neg (Ne.symm hee), Nat.add_zero] at hce ⊢
        simp only [slotsClaimed, pubDone] at hce ⊢
        split_ifs at hce ⊢ <;> omega
    · intro e' hne'
      exfalso
      rw [readyCt_cons, dpCt_cons] at hne'
      simp only [reduceCtorEq, if_false] at hne'
      by_cases hee : e' = s.put
      · subst hee
        omega
      · have := h3 e' (by
          rw [hw, readyCt_cons, dpCt_cons]
          simp only [Phase.didPut.injEq, reduceCtorEq, if_false,
            if_neg (Ne.symm hee)]
          omega)
        exact hee this.symm
    · show scanLog n (s.log ++ [Msg.term]) (0, 0)
        = some (s.put + 1, 0 + dpCt (s.put + 1) (.claiming ::ₘ rest))
      rw [scanLog_append, h4]
      have hdpw : dpCt (s.put + 1) rest = 0 := by
        by_contra hcon
        have := h3 (s.put + 1) (by
          rw [hw, readyCt_cons, dpCt_cons]
          simp only [Phase.didPut.injEq, reduceCtorEq, if_false]
          omega)
        omega
      have hdph : dpCt s.put (Phase.didPut s.put ::ₘ rest) = dpCt s.put rest + 1 := by
        rw [dpCt_cons]
        simp
      rw [hw, hdph]
      rw [dpCt_cons]
      simp only [reduceCtorEq, if_false, Nat.add_zero, Option.some_bind]
      have hc : s.done + (dpCt s.put rest + 1) = n := by omega
      simp [scanLog, stepMsg, hc, hdpw]
    · show s.put + 1 ≤ s.pick
      omega
  | publishMid rest e hw hdone =>
    have hput : s.put = e := by
      apply h3 e
      rw [hw, readyCt_cons, dpCt_cons]
      simp
    subst hput
    refine ⟨h1, ?_, ?_, ?_, h5⟩
    · intro e'
      have hce := h2 e'
      rw [hw, compCt_cons, readyCt_cons, dpCt_cons, lostCt_cons] at hce
      show slotsClaimed n s.pick s.cur e'
          = compCt e' (.claiming ::ₘ rest) + readyCt e' (.claiming ::ₘ rest)
            + dpCt e' (.claiming ::ₘ rest) + pubDone n s.put (s.done + 1) e'
            + lostCt e' (.claiming ::ₘ rest)
      rw [compCt_cons, readyCt_cons, dpCt_cons, lostCt_cons]
      simp only [Phase.didPut.injEq, reduceCtorEq, if_false] at hce ⊢
      simp only [slotsClaimed, pubDone] at hce ⊢
      split_ifs at hce ⊢ <;> omega
    · intro e' hne'
      rw [readyCt_cons, dpCt_cons] at hne'
      simp only [reduceCtorEq, if_false] at hne'
      apply h3 e'
      rw [hw, readyCt_cons, dpCt_cons]
      simp only [reduceCtorEq, if_false]
      omega
    · show scanLog n s.log (0, 0)
        = some (s.put, s.done + 1 + dpCt s.put (.claiming ::ₘ rest))
      have hdw : dpCt s.put (Phase.didPut s.put ::ₘ rest) = dpCt s.put rest + 1 := by
        rw [dpCt_cons]; simp
      have hdc : dpCt s.put (Phase.claiming ::ₘ rest) = dpCt s.put rest := by
        rw [dpCt_cons]; simp
      rw [hw, hdw] at h4
      rw [hdc]
      have harr : s.done + 1 + dpCt s.put rest
          = s.done + (dpCt s.put rest + 1) := by omega
      rw [harr]
      exact h4
  | loopDie rest hw hd =>
    refine ⟨h1, ?_, ?_, ?_, h5⟩
    · intro e
      have hce := h2 e
      rw [hw, compCt_cons, readyCt_cons, dpCt_cons, lostCt_cons] at hce
      show slotsClaimed n s.pick s.cur e
          = compCt e (.dead none ::ₘ rest) + readyCt e (.dead none ::ₘ rest)
            + dpCt e (.dead none ::ₘ rest) + pubDone n s.put s.done e
            + lostCt e (.dead none ::ₘ rest)
      rw [compCt_cons, readyCt_cons, dpCt_cons, lostCt_cons]
      simp only [reduceCtorEq, if_false, Phase.dead.injEq,
        Option.some.injEq] at hce ⊢
      simpa using hce
    · intro e hne
      rw [readyCt_cons, dpCt_cons] at hne
      simp only [reduceCtorEq, if_false] at hne
      apply h3 e
      rw [hw, readyCt_cons, dpCt_cons]
      simp only [reduceCtorEq, if_false]
      omega
    · show scanLog n s.log (0, 0)
        = some (s.put, s.done + dpCt s.put (.dead none ::ₘ rest))
      rw [dpCt_cons]
      simp only [reduceCtorEq, if_false, Nat.add_zero]
      rw [hw, dpCt_cons] at h4
      simpa using h4
  | setPause b =>
    exact ⟨h1, h2, h3, h4, h5⟩
  | setDie =>
    exact ⟨h1, h2, h3, h4, h5⟩

theorem inv_reachable {n E W : Nat} (hn : 1 ≤ n) {s : SysState}
    (h : Reachable (n : Int) E (initState W) s) : Inv n s := by
  induction h with
  | refl => exact inv_init n W hn
  | tail hsteps hstep ih => exact inv_step hn ih hstep

/-- In the degenerate stored modes `num_sketches ≤ 0` (in particular the
unbounded `-1`), the `id == num_sketches - 1` and
`done == num_sketches` guards can never fire, so neither epoch counter
ever moves. -/
theorem pick_put_zero {N : Int} {E W : Nat} (hN : N ≤ 0) {s : SysState}
    (h : Reachable N E (initState W) s) : s.pick = 0 ∧ s.put = 0 := by
  induction h with
  | refl => exact ⟨rfl, rfl⟩
  | tail hsteps hstep ih =>
    obtain ⟨hpick, hput⟩ := ih
    cases hstep with
    | claimLast rest hw hpse hE hid => exfalso; omega
    | publishLast rest e hw hdone => exfalso; omega
    | claimNext rest hw hpse hE hid => exact ⟨hpick, hput⟩
    | claimDie rest hw hpse hE => exact ⟨hpick, hput⟩
    | observeTurn rest e hw he => exact ⟨hpick, hput⟩
    | waitDie rest e hw hne hd => exact ⟨hpick, hput⟩
    | enqueueItem rest e hw => exact ⟨hpick, hput⟩
    | publishMid rest e hw hdone => exact ⟨hpick, hput⟩
    | loopDie rest hw hd => exact ⟨hpick, hput⟩
    | setPause b => exact ⟨hpick, hput⟩
    | setDie => exact ⟨hpick, hput⟩

/-! ## Claims about the worker protocol -/

/-- C2: in every state reachable by any interleaving of workers from a
freshly initialized synchronization record — any stored `num_sketches`,
any `num_epochs`, any number of workers — the invariant
`current_put_epoch ≤ current_pick_epoch` holds. -/
theorem put_le_pick_reachable (N : Int) (E W : Nat) (s : SysState)
    (h : Reachable N E (initState W) s) : s.put ≤ s.pick := by
  rcases le_or_lt N 0 with hN | hN
  · obtain ⟨hpick, hput⟩ := pick_put_zero hN h
    omega
  · have hn1 : 1 ≤ N.toNat := by omega
    have hNN : N = (N.toNat : Int) := by omega
    rw [hNN] at h
    exact (inv_reachable hn1 h).hple

/-- C1: in bounded-epoch mode (`num_sketches` stored as `n ≥ 1`), in
every reachable state the queue log contains exactly one terminator per
completed epoch (`current_put_epoch` of them), every terminator is
preceded by exactly `n` item messages of the epoch it closes, and every
item message of epoch `e` is enqueued after exactly `e` terminators —
between the terminator closing epoch `e - 1` and the one closing `e`. -/
theorem stream_log_epoch_structure (n : Nat) (hn : 1 ≤ n) (E W : Nat)
    (s : SysState) (h : Reachable (n : Int) E (initState W) s) :
    termCt s.log = s.put
      ∧ (∀ l1 l2, s.log = l1 ++ Msg.term :: l2 → itemCt (termCt l1) l1 = n)
      ∧ (∀ l1 l2 e, s.log = l1 ++ Msg.item e :: l2 → termCt l1 = e) := by
  have inv := inv_reachable hn h
  have h4 := inv.hlog
  obtain ⟨hle, hterm, hitem⟩ := scanLog_counts n s.log 0 0 s.put _ h4
  refine ⟨by omega, ?_, ?_⟩
  · intro l1 l2 hsplit
    rw [hsplit, scanLog_append] at h4
    cases hpre : scanLog n l1 (0, 0) with
    | none => rw [hpre] at h4; simp at h4
    | some st =>
      obtain ⟨ep, c⟩ := st
      rw [hpre] at h4
      simp only [Option.some_bind, scanLog, stepMsg] at h4
      by_cases hc : c = n
      · obtain ⟨hle1, hterm1, hitem1⟩ := scanLog_counts n l1 0 0 ep c hpre
        have ht1 : termCt l1 = ep := by omega
        rw [ht1]
        have h00 : (if (0 : Nat) = ep then (0 : Nat) else 0) = 0 := by
          split <;> rfl
        rw [h00] at hitem1
        omega
      · rw [if_neg hc] at h4
        simp at h4
  · intro l1 l2 e hsplit
    rw [hsplit, scanLog_append] at h4
    cases hpre : scanLog n l1 (0, 0) with
    | none => rw [hpre] at h4; simp at h4
    | some st =>
      obtain ⟨ep, c⟩ := st
      rw [hpre] at h4
      simp only [Option.some_bind, scanLog, stepMsg] at h4
      by_cases hc : e = ep
      · obtain ⟨hle1, hterm1, hitem1⟩ := scanLog_counts n l1 0 0 ep c hpre
        omega
      · rw [if_neg hc] at h4
        simp at h4

/-! ## A concrete run for the witnesses -/

theorem chain_step1 : Step ((1 : Nat) : Int) 1 (initState 1) chainS1 := by
  have hw : (initState 1).workers = Phase.claiming ::ₘ 0 := rfl
  exact Step.claimLast (initState 1) 0 hw rfl (by decide) (by decide)

theorem chain_step2 : Step ((1 : Nat) : Int) 1 chainS1 chainS2 :=
  Step.observeTurn chainS1 0 0 rfl rfl

theorem chain_step3 : Step ((1 : Nat) : Int) 1 chainS2 chainS3 :=
  Step.enqueueItem chainS2 0 0 rfl

theorem chain_step4 : Step ((1 : Nat) : Int) 1 chainS3 chainEnd :=
  Step.publishLast chainS3 0 0 rfl (by decide)

theorem chain_reach : Reachable ((1 : Nat) : Int) 1 (initState 1) chainEnd :=
  .tail (.tail (.tail (.tail .refl chain_step1) chain_step2) chain_step3)
    chain_step4

/-- C1 witness: the theorem on the concrete four-step run of one worker
with one sketch per epoch and one epoch: the log `[item 0, term]` has one
terminator for the one completed epoch, preceded by exactly one item of
epoch `0`. -/
theorem stream_log_epoch_structure_witness :
    termCt chainEnd.log = chainEnd.put
      ∧ itemCt (termCt [Msg.item 0]) [Msg.item 0] = 1 := by
  have h := stream_log_epoch_structure 1 (by decide) 1 1 chainEnd chain_reach
  exact ⟨h.1, h.2.1 [Msg.item 0] [] rfl⟩

/-- C2 witness: the theorem on the same concrete run. -/
theorem put_le_pick_reachable_witness : chainEnd.put ≤ chainEnd.pick :=
  put_le_pick_reachable ((1 : Nat) : Int) 1 1 chainEnd chain_reach

end QSketch
